import Mathlib

/-!
Verification development for the io_dif repository (DIF builder and
serializer).  The definitions below are shallow embeddings of the Rust
sources under src/rust: machine floats are modelled by exact rationals,
fallible operations return Option, and hash maps keyed by the epsilon
wrappers OrdPlaneF and OrdPoint are modelled as insertion-ordered
association lists looked up by the epsilon equality (the quantised
hashes of the source deliberately send near-equal keys to one bucket).
-/

namespace IoDif

/-- Three-component vector over the rationals, modelling Point3F. -/
structure Vec3 where
  x : ℚ
  y : ℚ
  z : ℚ
  deriving DecidableEq, Repr

/-- Dot product, modelling cgmath dot. -/
def Vec3.dot (a b : Vec3) : ℚ := a.x * b.x + a.y * b.y + a.z * b.z

/-- Componentwise subtraction. -/
def Vec3.sub (a b : Vec3) : Vec3 := ⟨a.x - b.x, a.y - b.y, a.z - b.z⟩

/-- Componentwise addition. -/
def Vec3.add (a b : Vec3) : Vec3 := ⟨a.x + b.x, a.y + b.y, a.z + b.z⟩

/-- Scalar multiplication. -/
def Vec3.smul (t : ℚ) (a : Vec3) : Vec3 := ⟨t * a.x, t * a.y, t * a.z⟩

/-- Componentwise negation, modelling multiplication by -1.0. -/
def Vec3.neg3 (a : Vec3) : Vec3 := ⟨-a.x, -a.y, -a.z⟩

/-- Plane with convention dot(normal, p) + distance = 0, modelling PlaneF. -/
structure PlaneQ where
  normal : Vec3
  distance : ℚ
  deriving DecidableEq, Repr

/-- Signed distance of a point from a plane: dot(n, v) + d. -/
def PlaneQ.eval (p : PlaneQ) (v : Vec3) : ℚ := p.normal.dot v + p.distance

/-- Negation of a plane (normal and distance both multiplied by -1),
as built inline in DIFBuilder.export_plane and BSPPolygon.clip_plane. -/
def PlaneQ.negate (p : PlaneQ) : PlaneQ := ⟨p.normal.neg3, -p.distance⟩

/-! ## PossiblyNullSurfaceIndex (libdif/src/interior.rs)

The wire form of the tagged surface index: a u32 whose high bit 0x80000000
signals the Null variant; reading masks the low 16 bits. -/

/-- Tagged surface index, modelling the Rust enum with u16 payloads. -/
inductive PNSurfaceIndex where
  | Null : ℕ → PNSurfaceIndex
  | NonNull : ℕ → PNSurfaceIndex
  deriving DecidableEq, Repr

/-- Wire encoding, modelling Writable for PossiblyNullSurfaceIndex:
Null k emits k OR 0x80000000, NonNull k emits k. -/
def PNSurfaceIndex.toU32 : PNSurfaceIndex → ℕ
  | .Null k => k ||| 0x80000000
  | .NonNull k => k

/-- Wire decoding, modelling the From u32 impl for PossiblyNullSurfaceIndex:
high bit set yields Null of the low 16 bits, otherwise NonNull. -/
def PNSurfaceIndex.fromU32 (index : ℕ) : PNSurfaceIndex :=
  if index &&& 0x80000000 = 0x80000000 then
    .Null (index &&& 0xFFFF)
  else
    .NonNull (index &&& 0xFFFF)

theorem lor_high_bit_land (k : ℕ) :
    (k ||| 2 ^ 31) &&& 2 ^ 31 = 2 ^ 31 := by
  apply Nat.eq_of_testBit_eq
  intro i
  simp only [Nat.testBit_land, Nat.testBit_lor]
  cases h1 : Nat.testBit k i <;> cases h2 : Nat.testBit (2 ^ 31) i <;> simp

theorem lor_high_bit_low16 (k : ℕ) (hk : k < 2 ^ 16) :
    (k ||| 2 ^ 31) &&& (2 ^ 16 - 1) = k := by
  apply Nat.eq_of_testBit_eq
  intro i
  simp only [Nat.testBit_land, Nat.testBit_lor, Nat.testBit_two_pow_sub_one]
  by_cases hi : i < 16
  · have h31 : Nat.testBit (2 ^ 31) i = false :=
      Nat.testBit_two_pow_of_ne (by omega)
    rw [h31]
    simp [hi]
  · have hk2 : Nat.testBit k i = false :=
      Nat.testBit_lt_two_pow (lt_of_lt_of_le hk (Nat.pow_le_pow_right (by omega) (by omega)))
    rw [hk2]
    simp [hi]

theorem low_land_high_bit (k : ℕ) (hk : k < 2 ^ 16) :
    k &&& 2 ^ 31 = 0 := by
  apply Nat.eq_of_testBit_eq
  intro i
  simp only [Nat.testBit_land, Nat.zero_testBit]
  by_cases hi : i = 31
  · subst hi
    have := Nat.testBit_lt_two_pow
      (x := k) (i := 31) (lt_of_lt_of_le hk (by norm_num))
    simp [this]
  · simp [Nat.testBit_two_pow_of_ne (fun h => hi h.symm)]

/-- C6: for every k below 0x10000, the Null variant round-trips through its
u32 wire form with the high bit set, and the NonNull variant round-trips
with the high bit clear. -/
theorem C6_pnsurface_roundtrip (k : ℕ) (hk : k < 0x10000) :
    PNSurfaceIndex.fromU32 (PNSurfaceIndex.toU32 (.Null k)) = .Null k ∧
    PNSurfaceIndex.toU32 (PNSurfaceIndex.Null k) = k ||| 0x80000000 ∧
    PNSurfaceIndex.fromU32 (PNSurfaceIndex.toU32 (.NonNull k)) = .NonNull k ∧
    PNSurfaceIndex.toU32 (PNSurfaceIndex.NonNull k) = k := by
  have hk16 : k < 2 ^ 16 := by norm_num at hk ⊢; exact hk
  have h16 : (0xFFFF : ℕ) = 2 ^ 16 - 1 := by norm_num
  have h31 : (0x80000000 : ℕ) = 2 ^ 31 := by norm_num
  refine ⟨?_, rfl, ?_, rfl⟩
  · unfold PNSurfaceIndex.toU32 PNSurfaceIndex.fromU32
    rw [h31, h16, lor_high_bit_land k, if_pos rfl, lor_high_bit_low16 k hk16]
  · unfold PNSurfaceIndex.toU32 PNSurfaceIndex.fromU32
    rw [h31, h16, low_land_high_bit k hk16]
    have hne : (0 : ℕ) ≠ 2 ^ 31 := by norm_num
    rw [if_neg hne, Nat.and_pow_two_sub_one_of_lt_two_pow hk16]

/-- Closed witness for C6 at k = 5. -/
theorem C6_pnsurface_roundtrip_witness :
    PNSurfaceIndex.fromU32 (PNSurfaceIndex.toU32 (.Null 5)) = .Null 5 ∧
    PNSurfaceIndex.toU32 (PNSurfaceIndex.Null 5) = 5 ||| 0x80000000 ∧
    PNSurfaceIndex.fromU32 (PNSurfaceIndex.toU32 (.NonNull 5)) = .NonNull 5 ∧
    PNSurfaceIndex.toU32 (PNSurfaceIndex.NonNull 5) = 5 :=
  C6_pnsurface_roundtrip 5 (by norm_num)

/-! ## Length-prefixed String reader (libdif/src/io.rs, String::read)

The reader takes a u8 length, then collects bytes via Buf::take, which
caps the collected bytes at the remaining length of the buffer, and then
validates UTF-8.  Strings are modelled as byte lists; from_utf8 is
modelled by a UTF-8 validity check. -/

/-- Continuation byte test for UTF-8 (bits 10xxxxxx). -/
def isCont (b : ℕ) : Bool := 0x80 ≤ b && b ≤ 0xBF

/-- UTF-8 validity of a byte sequence, modelling String::from_utf8
acceptance (RFC 3629 ranges, surrogates and overlong forms rejected). -/
def utf8Valid : List ℕ → Bool
  | [] => true
  | b :: rest =>
    if b ≤ 0x7F then utf8Valid rest
    else if 0xC2 ≤ b ∧ b ≤ 0xDF then
      match rest with
      | c1 :: r => isCont c1 && utf8Valid r
      | [] => false
    else if b = 0xE0 then
      match rest with
      | c1 :: c2 :: r => (0xA0 ≤ c1 && c1 ≤ 0xBF) && isCont c2 && utf8Valid r
      | _ => false
    else if (0xE1 ≤ b ∧ b ≤ 0xEC) ∨ b = 0xEE ∨ b = 0xEF then
      match rest with
      | c1 :: c2 :: r => isCont c1 && isCont c2 && utf8Valid r
      | _ => false
    else if b = 0xED then
      match rest with
      | c1 :: c2 :: r => (0x80 ≤ c1 && c1 ≤ 0x9F) && isCont c2 && utf8Valid r
      | _ => false
    else if b = 0xF0 then
      match rest with
      | c1 :: c2 :: c3 :: r =>
        (0x90 ≤ c1 && c1 ≤ 0xBF) && isCont c2 && isCont c3 && utf8Valid r
      | _ => false
    else if 0xF1 ≤ b ∧ b ≤ 0xF3 then
      match rest with
      | c1 :: c2 :: c3 :: r => isCont c1 && isCont c2 && isCont c3 && utf8Valid r
      | _ => false
    else if b = 0xF4 then
      match rest with
      | c1 :: c2 :: c3 :: r =>
        (0x80 ≤ c1 && c1 ≤ 0x8F) && isCont c2 && isCont c3 && utf8Valid r
      | _ => false
    else false

/-- String::read from io.rs: read a u8 length (EOF on empty input), then
collect up to that many bytes from the buffer (Buf::take stops at the end
of the buffer without error) and validate UTF-8.  Returns the collected
byte list and the rest of the stream. -/
def stringRead : List ℕ → Option (List ℕ × List ℕ)
  | [] => none
  | len :: rest =>
    let bytes := rest.take len
    if utf8Valid bytes then some (bytes, rest.drop len) else none

/-- C7 failing-input evaluation: a buffer declaring length 5 with only two
remaining bytes (0x41 0x42) parses successfully to the silently shortened
string "AB" instead of aborting with a truncated-stream error. -/
theorem C7_string_read_truncation_bug :
    stringRead [5, 0x41, 0x42] = some ([0x41, 0x42], []) := by decide

/-! ## Plane export and deduplication (libdifbuilder/src/builder.rs)

DIFBuilder.export_plane with its OrdPlaneF / OrdPoint epsilon wrappers.
The HashMap plane_map is modelled as an insertion-ordered association
list; lookup succeeds on the first entry with equal quantised hash and
epsilon equality (a HashMap always finds an entry stored under the same
full hash when the Eq comparison accepts it). -/

/-- Equality of OrdPlaneF: the dot product of the normals exceeds 0.999
and the distances differ by at most PLANE_EPSILON. -/
def ordPlaneEqB (planeEps : ℚ) (a b : PlaneQ) : Bool :=
  decide (a.normal.dot b.normal > 999/1000) &&
  decide (|a.distance - b.distance| ≤ planeEps)

/-- Equality of OrdPoint: every coordinate within POINT_EPSILON. -/
def ordPointEqB (pointEps : ℚ) (a b : Vec3) : Bool :=
  decide (|a.x - b.x| ≤ pointEps) &&
  decide (|a.y - b.y| ≤ pointEps) &&
  decide (|a.z - b.z| ≤ pointEps)

/-- Lookup in the association-list model of a HashMap keyed by an epsilon
wrapper: the first entry whose key passes the epsilon equality against
the query.  (The quantised OrdPlaneF / OrdPoint hashes of the source
deliberately force near-equal keys into the same bucket, so the map is
modelled as found-by-equality.) -/
def hmFind {α : Type} (eqb : α → α → Bool)
    (m : List (α × ℕ)) (k : α) : Option ℕ :=
  (m.find? (fun e => eqb k e.1)).map Prod.snd

/-- The slice of the DIFBuilder state that export_plane reads and writes:
the interior plane, normal and normal2 tables and the plane/normal
dedup maps. -/
structure BState where
  planes : List (ℕ × ℚ)
  normals : List Vec3
  normal2s : List Vec3
  planeMap : List (PlaneQ × ℕ)
  normalMap : List (Vec3 × ℕ)
  mbOnly : Bool
  deriving DecidableEq, Repr

/-- Builder state with empty tables, as produced by DIFBuilder::new. -/
def emptyBState (mbOnly : Bool) : BState := ⟨[], [], [], [], [], mbOnly⟩

/-- DIFBuilder.export_plane: assert the plane table has fewer than
0x10000 entries (modelled as returning none), then look the plane up in
plane_map; on a miss look up its exact negation and return that index
OR-ed with 0x8000; otherwise intern the normal (deduplicated through
normal_map), push a new plane entry and record it in plane_map. -/
def exportPlane (pointEps planeEps : ℚ) (s : BState) (p : PlaneQ) :
    Option (ℕ × BState) :=
  if s.planes.length < 0x10000 then
    match hmFind (ordPlaneEqB planeEps) s.planeMap p with
    | some pval => some (pval, s)
    | none =>
      match hmFind (ordPlaneEqB planeEps) s.planeMap p.negate with
      | some pval => some (pval ||| 0x8000, s)
      | none =>
        let index := s.planes.length
        let s1 :=
          match hmFind (ordPointEqB pointEps) s.normalMap p.normal with
          | some nidx => { s with planes := s.planes ++ [(nidx, p.distance)] }
          | none =>
            let normalIndex := s.normals.length
            { s with
              normalMap := s.normalMap ++ [(p.normal, normalIndex)]
              normals := s.normals ++ [p.normal]
              normal2s := if s.mbOnly then s.normal2s else s.normal2s ++ [p.normal]
              planes := s.planes ++ [(normalIndex, p.distance)] }
        some (index, { s1 with planeMap := s1.planeMap ++ [(p, index)] })
  else none

theorem hmFind_none {α : Type} (eqb : α → α → Bool)
    (m : List (α × ℕ)) (k : α) (h : ∀ e ∈ m, eqb k e.1 = false) :
    hmFind eqb m k = none := by
  have hfind : (m.find? (fun e => eqb k e.1)) = none :=
    List.find?_eq_none.mpr (by intro e he; simp [h e he])
  simp [hmFind, hfind]

theorem hmFind_append_hit {α : Type} (eqb : α → α → Bool)
    (m : List (α × ℕ)) (k key : α) (v : ℕ)
    (h : ∀ e ∈ m, eqb k e.1 = false) (he : eqb k key = true) :
    hmFind eqb (m ++ [(key, v)]) k = some v := by
  have hfind : (m.find? (fun e => eqb k e.1)) = none :=
    List.find?_eq_none.mpr (by intro e he; simp [h e he])
  have hpos : (fun (e : α × ℕ) => eqb k e.1) (key, v) = true := he
  simp [hmFind, List.find?_append, hfind, List.find?_cons_of_pos _ hpos]
  exact he

theorem Vec3.dot_self_nonneg (a : Vec3) : 0 ≤ a.dot a := by
  unfold Vec3.dot
  have hx := mul_self_nonneg a.x
  have hy := mul_self_nonneg a.y
  have hz := mul_self_nonneg a.z
  linarith

theorem Vec3.neg3_dot (a b : Vec3) : a.neg3.dot b = -(a.dot b) := by
  simp [Vec3.neg3, Vec3.dot]
  ring

theorem PlaneQ.negate_negate (p : PlaneQ) : p.negate.negate = p := by
  cases p with
  | mk n d => cases n; simp [PlaneQ.negate, Vec3.neg3]

theorem ordPlaneEqB_self {pl : ℚ} (hpl : 0 ≤ pl) (p : PlaneQ)
    (hunit : p.normal.dot p.normal > 999/1000) :
    ordPlaneEqB pl p p = true := by
  unfold ordPlaneEqB
  rw [decide_eq_true hunit]
  simp [hpl]

theorem ordPlaneEqB_negate (pl : ℚ) (p : PlaneQ)
    (hunit : p.normal.dot p.normal > 999/1000) :
    ordPlaneEqB pl p.negate p = false := by
  unfold ordPlaneEqB
  have hdot : p.negate.normal.dot p.normal = -(p.normal.dot p.normal) := by
    simp [PlaneQ.negate, Vec3.neg3_dot]
  have hneg : ¬(p.negate.normal.dot p.normal > 999/1000) := by
    rw [hdot]
    have := Vec3.dot_self_nonneg p.normal
    linarith
  simp [hneg]

/-- C1 (amended): for every builder state and plane p whose normal passes
the OrdPlaneF self-equality (dot of the normal with itself above 0.999),
if the plane map holds no entry epsilon-equal to p or to its negation
(so the first call inserts a fresh entry) and the plane table has room
for the new entry plus a repeat call, then exporting p twice returns the
same index both times, exporting the exact negation afterwards returns
that index OR-ed with 0x8000, and neither the repeat nor the negation
call changes the state (no new plane-table entry). -/
theorem C1_export_plane_dedup (pe pl : ℚ) (hpl : 0 ≤ pl) (s : BState) (p : PlaneQ)
    (hunit : p.normal.dot p.normal > 999/1000)
    (hfresh : ∀ e ∈ s.planeMap, ordPlaneEqB pl p e.1 = false)
    (hfreshneg : ∀ e ∈ s.planeMap, ordPlaneEqB pl p.negate e.1 = false)
    (hroom : s.planes.length + 1 < 0x10000) :
    ∃ s2 : BState,
      exportPlane pe pl s p = some (s.planes.length, s2) ∧
      s2.planes.length = s.planes.length + 1 ∧
      exportPlane pe pl s2 p = some (s.planes.length, s2) ∧
      exportPlane pe pl s2 p.negate = some (s.planes.length ||| 0x8000, s2) := by
  have hlen : s.planes.length < 0x10000 := by omega
  have hf1 : hmFind (ordPlaneEqB pl) s.planeMap p = none :=
    hmFind_none _ _ _ hfresh
  have hf2 : hmFind (ordPlaneEqB pl) s.planeMap p.negate = none :=
    hmFind_none _ _ _ hfreshneg
  have hself : ordPlaneEqB pl p p = true := ordPlaneEqB_self hpl p hunit
  have hnegeq : ordPlaneEqB pl p.negate p = false := ordPlaneEqB_negate pl p hunit
  cases hnm : hmFind (ordPointEqB pe) s.normalMap p.normal with
  | some nidx =>
    refine ⟨{ s with
        planes := s.planes ++ [(nidx, p.distance)]
        planeMap := s.planeMap ++ [(p, s.planes.length)] }, ?_, ?_, ?_, ?_⟩
    · unfold exportPlane
      rw [if_pos hlen, hf1, hf2, hnm]
    · simp
    · unfold exportPlane
      rw [if_pos (by simp; omega)]
      rw [show hmFind (ordPlaneEqB pl)
            (s.planeMap ++ [(p, s.planes.length)]) p = some s.planes.length from
          hmFind_append_hit _ _ _ _ _ hfresh hself]
    · unfold exportPlane
      rw [if_pos (by simp; omega)]
      rw [show hmFind (ordPlaneEqB pl)
            (s.planeMap ++ [(p, s.planes.length)]) p.negate = none from
          hmFind_none _ _ _ (by
            intro e he
            rcases List.mem_append.mp he with h1 | h2
            · exact hfreshneg e h1
            · rcases List.mem_singleton.mp h2 with rfl
              exact hnegeq)]
      rw [PlaneQ.negate_negate]
      rw [show hmFind (ordPlaneEqB pl)
            (s.planeMap ++ [(p, s.planes.length)]) p = some s.planes.length from
          hmFind_append_hit _ _ _ _ _ hfresh hself]
  | none =>
    refine ⟨{ s with
        normalMap := s.normalMap ++ [(p.normal, s.normals.length)]
        normals := s.normals ++ [p.normal]
        normal2s := if s.mbOnly then s.normal2s else s.normal2s ++ [p.normal]
        planes := s.planes ++ [(s.normals.length, p.distance)]
        planeMap := s.planeMap ++ [(p, s.planes.length)] }, ?_, ?_, ?_, ?_⟩
    · unfold exportPlane
      rw [if_pos hlen, hf1, hf2, hnm]
    · simp
    · unfold exportPlane
      rw [if_pos (by simp; omega)]
      rw [show hmFind (ordPlaneEqB pl)
            (s.planeMap ++ [(p, s.planes.length)]) p = some s.planes.length from
          hmFind_append_hit _ _ _ _ _ hfresh hself]
    · unfold exportPlane
      rw [if_pos (by simp; omega)]
      rw [show hmFind (ordPlaneEqB pl)
            (s.planeMap ++ [(p, s.planes.length)]) p.negate = none from
          hmFind_none _ _ _ (by
            intro e he
            rcases List.mem_append.mp he with h1 | h2
            · exact hfreshneg e h1
            · rcases List.mem_singleton.mp h2 with rfl
              exact hnegeq)]
      rw [PlaneQ.negate_negate]
      rw [show hmFind (ordPlaneEqB pl)
            (s.planeMap ++ [(p, s.planes.length)]) p = some s.planes.length from
          hmFind_append_hit _ _ _ _ _ hfresh hself]

/-- Closed witness for C1 on the x = 0 unit plane from the empty builder. -/
theorem C1_export_plane_dedup_witness :
    ∃ s2 : BState,
      exportPlane (1/1000000) (1/100000) (emptyBState false) ⟨⟨1, 0, 0⟩, 0⟩ =
        some ((emptyBState false).planes.length, s2) ∧
      s2.planes.length = (emptyBState false).planes.length + 1 ∧
      exportPlane (1/1000000) (1/100000) s2 ⟨⟨1, 0, 0⟩, 0⟩ =
        some ((emptyBState false).planes.length, s2) ∧
      exportPlane (1/1000000) (1/100000) s2 (PlaneQ.negate ⟨⟨1, 0, 0⟩, 0⟩) =
        some ((emptyBState false).planes.length ||| 0x8000, s2) :=
  C1_export_plane_dedup (1/1000000) (1/100000) (by norm_num) (emptyBState false)
    ⟨⟨1, 0, 0⟩, 0⟩ (by norm_num [Vec3.dot]) (by intro e he; simp [emptyBState] at he)
    (by intro e he; simp [emptyBState] at he) (by simp [emptyBState])

/-- Epsilon values used by the C1 counterexample scenarios
(the defaults POINT_EPSILON = 1e-6 and PLANE_EPSILON = 1e-5). -/
def ceEps1 : ℚ := 1/1000000

/-- Default PLANE_EPSILON for the counterexample scenarios. -/
def ceEps2 : ℚ := 1/100000

/-- Degenerate plane with zero normal: OrdPlaneF equality is not
reflexive on it (0 is not greater than 0.999). -/
def pZero : PlaneQ := ⟨⟨0, 0, 0⟩, 0⟩

/-- State after exporting pZero once from the empty builder. -/
def sZ1 : BState := ⟨[(0, 0)], [⟨0, 0, 0⟩], [⟨0, 0, 0⟩], [(pZero, 0)], [(⟨0, 0, 0⟩, 0)], false⟩

/-- State after exporting pZero twice from the empty builder: two plane
entries for the same plane. -/
def sZ2 : BState := ⟨[(0, 0), (0, 0)], [⟨0, 0, 0⟩], [⟨0, 0, 0⟩],
  [(pZero, 0), (pZero, 1)], [(⟨0, 0, 0⟩, 0)], false⟩

/-- First plane of the aliasing scenario. -/
def pE : PlaneQ := ⟨⟨1, 0, 0⟩, 0.995⟩

/-- Second plane of the aliasing scenario: close to the negation of pE
but more than PLANE_EPSILON away from it in distance. -/
def pG : PlaneQ := ⟨⟨-1, 0, 0⟩, -0.995012⟩

/-- Query plane of the aliasing scenario: within PLANE_EPSILON of pE,
and its negation within PLANE_EPSILON of pG. -/
def pP : PlaneQ := ⟨⟨1, 0, 0⟩, 0.995003⟩

/-- State after exporting pE from the empty builder. -/
def sA1 : BState := ⟨[(0, 0.995)], [⟨1, 0, 0⟩], [⟨1, 0, 0⟩], [(pE, 0)], [(⟨1, 0, 0⟩, 0)], false⟩

/-- State after exporting pE then pG from the empty builder: both
entries present because their distances differ by more than
PLANE_EPSILON under negation. -/
def sA2 : BState := ⟨[(0, 0.995), (1, -0.995012)], [⟨1, 0, 0⟩, ⟨-1, 0, 0⟩],
  [⟨1, 0, 0⟩, ⟨-1, 0, 0⟩], [(pE, 0), (pG, 1)],
  [(⟨1, 0, 0⟩, 0), (⟨-1, 0, 0⟩, 1)], false⟩

/-- Nearly full builder state: 0xFFFF plane entries, empty maps. -/
def sBig : BState := ⟨List.replicate 0xFFFF (0, 0), [], [], [], [], false⟩

/-- Fresh plane exported into the nearly full state. -/
def pF : PlaneQ := ⟨⟨0, 0, 1⟩, 7⟩

/-- State after exporting pF into the nearly full state. -/
def sB2 : BState := ⟨List.replicate 0xFFFF (0, 0) ++ [(0, 7)], [⟨0, 0, 1⟩],
  [⟨0, 0, 1⟩], [(pF, 0xFFFF)], [(⟨0, 0, 1⟩, 0)], false⟩

set_option maxHeartbeats 2000000 in
/-- C1 counterexample: the claim fails as stated, at three explicit
inputs.  (i) Exporting the zero-normal plane twice from the empty builder
returns indices 0 then 1 and creates a second plane-table entry, because
the OrdPlaneF equality is not reflexive on a zero normal.  (ii) After
exporting pE and pG from the empty builder, export_plane pP returns
index 0 (pP dedups to pE), but exporting the exact negation of pP
returns index 1 (it dedups to pG), not 0 OR 0x8000 = 0x8000.  (iii) From
a state whose plane table already holds 0xFFFF entries, exporting a
fresh plane returns index 0xFFFF, and the repeat export of the same
plane fails on the table-size assert instead of returning the index. -/
theorem C1_counterexample :
    (exportPlane ceEps1 ceEps2 (emptyBState false) pZero = some (0, sZ1) ∧
     exportPlane ceEps1 ceEps2 sZ1 pZero = some (1, sZ2) ∧
     sZ2.planes.length = 2 ∧ (0 : ℕ) ≠ 1) ∧
    (exportPlane ceEps1 ceEps2 (emptyBState false) pE = some (0, sA1) ∧
     exportPlane ceEps1 ceEps2 sA1 pG = some (1, sA2) ∧
     exportPlane ceEps1 ceEps2 sA2 pP = some (0, sA2) ∧
     exportPlane ceEps1 ceEps2 sA2 pP.negate = some (1, sA2) ∧
     (1 : ℕ) ≠ 0 ||| 0x8000) ∧
    (exportPlane ceEps1 ceEps2 sBig pF = some (0xFFFF, sB2) ∧
     exportPlane ceEps1 ceEps2 sB2 pF = none) := by
  refine ⟨⟨?_, ?_, by norm_num [sZ2], by norm_num⟩,
    ⟨?_, ?_, ?_, ?_, by norm_num⟩, ?_, ?_⟩
  · norm_num [exportPlane, hmFind, ceEps1, ceEps2, emptyBState, pZero, sZ1, ordPlaneEqB,
      ordPointEqB, PlaneQ.negate, Vec3.neg3, Vec3.dot]
  · norm_num [exportPlane, hmFind, ceEps1, ceEps2, sZ1, sZ2, pZero, ordPlaneEqB, ordPointEqB,
      PlaneQ.negate, Vec3.neg3, Vec3.dot, abs_of_nonneg, abs_of_nonpos, abs_neg]
  · norm_num [exportPlane, hmFind, ceEps1, ceEps2, emptyBState, pE, sA1, ordPlaneEqB,
      ordPointEqB, PlaneQ.negate, Vec3.neg3, Vec3.dot]
  · norm_num [exportPlane, hmFind, ceEps1, ceEps2, sA1, sA2, pE, pG, ordPlaneEqB, ordPointEqB,
      PlaneQ.negate, Vec3.neg3, Vec3.dot, abs_of_nonneg, abs_of_nonpos, abs_neg]
  · norm_num [exportPlane, hmFind, ceEps1, ceEps2, sA2, pE, pG, pP, ordPlaneEqB, ordPointEqB,
      PlaneQ.negate, Vec3.neg3, Vec3.dot, abs_of_nonneg, abs_of_nonpos, abs_neg]
  · norm_num [exportPlane, hmFind, ceEps1, ceEps2, sA2, pE, pG, pP, ordPlaneEqB, ordPointEqB,
      PlaneQ.negate, Vec3.neg3, Vec3.dot, abs_of_nonneg, abs_of_nonpos, abs_neg]
  · have hlen : sBig.planes.length = 0xFFFF := by
      rw [show sBig.planes = List.replicate 0xFFFF ((0 : ℕ), (0 : ℚ)) from rfl,
        List.length_replicate]
    simp only [exportPlane, hlen]
    rw [if_pos (by norm_num)]
    rw [show hmFind (ordPlaneEqB ceEps2) sBig.planeMap pF = none from rfl]
    rw [show hmFind (ordPlaneEqB ceEps2) sBig.planeMap pF.negate = none from rfl]
    rw [show hmFind (ordPointEqB ceEps1) sBig.normalMap pF.normal = none from rfl]
    rfl
  · have hlen : sB2.planes.length = 0x10000 := by
      rw [show sB2.planes = List.replicate 0xFFFF ((0 : ℕ), (0 : ℚ)) ++ [(0, 7)] from rfl,
        List.length_append, List.length_replicate]
      rfl
    simp only [exportPlane, hlen]
    rw [if_neg (by norm_num)]

/-- C5 (amended): export_plane fails exactly when the plane table already
holds 0x10000 or more entries at call time; the table-size assert runs
before the dedup lookup, so in a full table even a call that would
deduplicate to an existing entry fails. -/
theorem C5_export_plane_fatal_iff (pe pl : ℚ) (s : BState) (p : PlaneQ) :
    exportPlane pe pl s p = none ↔ 0x10000 ≤ s.planes.length := by
  constructor
  · intro h
    by_contra hlt
    push_neg at hlt
    unfold exportPlane at h
    rw [if_pos hlt] at h
    rcases hf : hmFind (ordPlaneEqB pl) s.planeMap p with _ | pv
    · rcases hf2 : hmFind (ordPlaneEqB pl) s.planeMap p.negate with _ | pv2
      · rcases hnm : hmFind (ordPointEqB pe) s.normalMap p.normal with _ | nidx <;>
          simp [hf, hf2, hnm] at h
      · simp [hf, hf2] at h
    · simp [hf] at h
  · intro h
    unfold exportPlane
    rw [if_neg (by omega)]

/-- Closed witness for C5: on the empty builder the export of a plane
does not fail. -/
theorem C5_export_plane_fatal_iff_witness :
    ¬(0x10000 ≤ (emptyBState false).planes.length) ∧
    ¬(exportPlane (1/1000000) (1/100000) (emptyBState false) ⟨⟨1, 0, 0⟩, 0⟩ = none) :=
  ⟨by simp [emptyBState],
   fun h => by
     have := (C5_export_plane_fatal_iff (1/1000000) (1/100000)
       (emptyBState false) ⟨⟨1, 0, 0⟩, 0⟩).mp h
     simp [emptyBState] at this⟩

/-- Full-table state with a dedup entry for the plane pC5. -/
def pC5 : PlaneQ := ⟨⟨1, 0, 0⟩, 0⟩

/-- Builder state whose plane table holds exactly 0x10000 entries and
whose plane map already contains pC5 at index 0. -/
def sC5 : BState := ⟨List.replicate 0x10000 (0, 0), [⟨1, 0, 0⟩], [⟨1, 0, 0⟩],
  [(pC5, 0)], [(⟨1, 0, 0⟩, 0)], false⟩

/-- C5 counterexample: in a builder state whose plane table holds 0x10000
entries, export_plane of a plane that deduplicates to the existing entry
at index 0 (the epsilon lookup would succeed) still fails, because the
table-size assert runs first.  The claim says a deduplicating export
never fails regardless of table size. -/
theorem C5_counterexample :
    exportPlane (1/1000000) (1/100000) sC5 pC5 = none ∧
    hmFind (ordPlaneEqB (1/100000)) sC5.planeMap pC5 = some 0 := by
  constructor
  · have hlen : sC5.planes.length = 0x10000 := by
      rw [show sC5.planes = List.replicate 0x10000 ((0 : ℕ), (0 : ℚ)) from rfl,
        List.length_replicate]
    unfold exportPlane
    rw [if_neg (by rw [hlen]; norm_num)]
  · norm_num [hmFind, sC5, pC5, ordPlaneEqB, Vec3.dot]

/-! ## BSP polygons (libdifbuilder/src/bsp.rs)

BSPPolygon with its splitter-scoring and plane-clipping operations.
BSP_CONFIG.epsilon is passed explicitly; the rayon parallel reduction of
split ratings, serialised by the Mutex around the considered-planes set,
is modelled as a left fold threading the set. -/

/-- BSPPolygon: vertex pool, index list, plane id into the BSP plane
table, and the inverted/used flags. -/
structure BSPPolygonM where
  vertices : List Vec3
  indices : List ℕ
  planeId : ℕ
  invertedPlane : Bool
  usedPlane : Bool
  deriving DecidableEq, Repr

/-- Split-rating tuple (front, back, splits, coplanar, tiny_windings). -/
abbrev Rating := ℤ × ℤ × ℤ × ℤ × ℤ

/-- Componentwise sum of rating tuples, as in the rayon reduce. -/
def addRating (a b : Rating) : Rating :=
  (a.1 + b.1, a.2.1 + b.2.1, a.2.2.1 + b.2.2.1, a.2.2.2.1 + b.2.2.2.1,
   a.2.2.2.2 + b.2.2.2.2)

/-- Coplanar component of a rating tuple. -/
def coplanarCount (r : Rating) : ℤ := r.2.2.2.1

/-- BSPPolygon.calculate_split_rating: when the candidate plane has not
been counted yet and the brush lies on it, record it in the
considered-planes set and return the coplanar tuple ((1,0,0,1,0) when
the brush plane is inverted, (0,1,0,1,0) otherwise); else scan the
deduplicated vertex indices for the largest front and back signed
distances and derive (front, back, splits, 0, tiny_windings). -/
def calculateSplitRating (eps : ℚ) (poly : BSPPolygonM) (planeId : ℕ)
    (planeList : List PlaneQ) (considered : List ℕ) : Rating × List ℕ :=
  if considered.contains planeId = false ∧ poly.planeId = planeId then
    (if poly.invertedPlane then ((1 : ℤ), 0, 0, 1, 0) else (0, 1, 0, 1, 0),
     planeId :: considered)
  else
    let uniquePoints := poly.indices.eraseDups
    let testPlane := planeList.getD planeId ⟨⟨0, 0, 0⟩, 0⟩
    let mm := uniquePoints.foldl
      (fun (mm : ℚ × ℚ) pIdx =>
        let pt := poly.vertices.getD pIdx ⟨0, 0, 0⟩
        let d := testPlane.normal.dot pt + testPlane.distance
        (if d > mm.1 then d else mm.1, if d < mm.2 then d else mm.2))
      (0, 0)
    let front : ℤ := if mm.1 > eps then 1 else 0
    let back : ℤ := if mm.2 < -eps then 1 else 0
    let splits : ℤ := if mm.1 > eps ∧ mm.2 < -eps then 1 else 0
    let tiny : ℤ := if (mm.1 > 0 ∧ mm.1 < 1) ∨ (mm.2 < 0 ∧ mm.2 > -1) then 1 else 0
    ((front, back, splits, 0, tiny), considered)

/-- One step of the rating accumulation over the brush list. -/
def ratingStep (eps : ℚ) (planeId : ℕ) (planeList : List PlaneQ)
    (acc : Rating × List ℕ) (poly : BSPPolygonM) : Rating × List ℕ :=
  let rc := calculateSplitRating eps poly planeId planeList acc.2
  (addRating acc.1 rc.1, rc.2)

/-- The (front, back, splits, coplanar, tiny_windings) accumulation of
calc_plane_rating over the brush list of a node, from a fresh
considered-planes set. -/
def ratingAccum (eps : ℚ) (polys : List BSPPolygonM) (planeId : ℕ)
    (planeList : List PlaneQ) : Rating × List ℕ :=
  polys.foldl (ratingStep eps planeId planeList) (((0 : ℤ), 0, 0, 0, 0), [])

theorem calculateSplitRating_coplanar_or (eps : ℚ) (poly : BSPPolygonM)
    (planeId : ℕ) (planeList : List PlaneQ) (considered : List ℕ) :
    (coplanarCount (calculateSplitRating eps poly planeId planeList considered).1 = 0 ∧
     (calculateSplitRating eps poly planeId planeList considered).2 = considered) ∨
    (coplanarCount (calculateSplitRating eps poly planeId planeList considered).1 = 1 ∧
     (calculateSplitRating eps poly planeId planeList considered).2 =
       planeId :: considered) := by
  unfold calculateSplitRating
  by_cases h : considered.contains planeId = false ∧ poly.planeId = planeId
  · right
    rw [if_pos h]
    by_cases hi : poly.invertedPlane <;> simp [hi, coplanarCount]
  · left
    rw [if_neg h]
    simp [coplanarCount]

theorem coplanarCount_addRating (a b : Rating) :
    coplanarCount (addRating a b) = coplanarCount a + coplanarCount b := rfl

theorem ratingFold_coplanar_bound (eps : ℚ) (planeId : ℕ)
    (planeList : List PlaneQ) :
    ∀ (polys : List BSPPolygonM) (acc : Rating) (c : List ℕ),
      coplanarCount ((polys.foldl (ratingStep eps planeId planeList) (acc, c)).1) ≤
        coplanarCount acc + (if c.contains planeId = false then 1 else 0) := by
  intro polys
  induction polys with
  | nil =>
    intro acc c
    simp only [List.foldl_nil]
    split <;> omega
  | cons poly rest ih =>
    intro acc c
    rw [List.foldl_cons]
    rcases calculateSplitRating_coplanar_or eps poly planeId planeList c with
      ⟨h0, hc⟩ | ⟨h1, hc⟩
    · have hstep : ratingStep eps planeId planeList (acc, c) poly =
          (addRating acc (calculateSplitRating eps poly planeId planeList c).1, c) := by
        rw [ratingStep, hc]
      rw [hstep]
      have hrec := ih (addRating acc (calculateSplitRating eps poly planeId planeList c).1) c
      have hadd := coplanarCount_addRating acc
        (calculateSplitRating eps poly planeId planeList c).1
      split at hrec <;> split <;> omega
    · have hstep : ratingStep eps planeId planeList (acc, c) poly =
          (addRating acc (calculateSplitRating eps poly planeId planeList c).1,
           planeId :: c) := by
        rw [ratingStep, hc]
      rw [hstep]
      have hcf : c.contains planeId = false := by
        by_contra hx
        have hxx : c.contains planeId = true := by
          revert hx
          cases c.contains planeId <;> simp
        have hgeo : (calculateSplitRating eps poly planeId planeList c).2 = c := by
          unfold calculateSplitRating
          rw [if_neg (by rw [hxx]; simp)]
        rw [hc] at hgeo
        exact List.cons_ne_self _ _ hgeo
      have hmem : ((planeId :: c).contains planeId) = true := by simp
      have hrec := ih (addRating acc (calculateSplitRating eps poly planeId planeList c).1)
        (planeId :: c)
      have hadd := coplanarCount_addRating acc
        (calculateSplitRating eps poly planeId planeList c).1
      rw [hmem] at hrec
      rw [if_pos hcf]
      simp only [Bool.true_eq_false, if_false] at hrec
      omega

/-- C2 (amended): in BSP splitter scoring, a brush whose own plane id
equals the candidate plane p and whose plane has not yet been counted
contributes (1,0,0,1,0) when its plane IS the inverted p and (0,1,0,1,0)
when it is the non-inverted p (the reverse of the claim), and the
coplanar component of the accumulated rating over the brushes of a node
is at most 1 (counted at most once per candidate plane id). -/
theorem C2_split_rating_coplanar :
    (∀ (eps : ℚ) (poly : BSPPolygonM) (p : ℕ) (planeList : List PlaneQ)
       (considered : List ℕ),
       considered.contains p = false → poly.planeId = p →
       calculateSplitRating eps poly p planeList considered =
         ((if poly.invertedPlane then ((1 : ℤ), 0, 0, 1, 0) else (0, 1, 0, 1, 0)),
          p :: considered)) ∧
    (∀ (eps : ℚ) (polys : List BSPPolygonM) (p : ℕ) (planeList : List PlaneQ),
       coplanarCount (ratingAccum eps polys p planeList).1 ≤ 1) := by
  constructor
  · intro eps poly p planeList considered hc hid
    unfold calculateSplitRating
    rw [if_pos ⟨hc, hid⟩]
  · intro eps polys p planeList
    have hb := ratingFold_coplanar_bound eps p planeList polys ((0 : ℤ), 0, 0, 0, 0) []
    rw [if_pos (show (([] : List ℕ).contains p) = false from rfl)] at hb
    have hzero : coplanarCount ((0 : ℤ), 0, 0, 0, 0) = 0 := rfl
    unfold ratingAccum
    omega

/-- Closed witness for C2 on a one-brush node. -/
theorem C2_split_rating_coplanar_witness :
    calculateSplitRating (1/10000) ⟨[⟨0, 0, 0⟩], [0], 4, false, false⟩ 4 [] [] =
      ((if false then ((1 : ℤ), 0, 0, 1, 0) else (0, 1, 0, 1, 0)), [4]) ∧
    coplanarCount (ratingAccum (1/10000) [⟨[⟨0, 0, 0⟩], [0], 4, false, false⟩] 4 []).1 ≤ 1 :=
  ⟨C2_split_rating_coplanar.1 (1/10000) ⟨[⟨0, 0, 0⟩], [0], 4, false, false⟩ 4 [] []
      rfl rfl,
   C2_split_rating_coplanar.2 (1/10000) [⟨[⟨0, 0, 0⟩], [0], 4, false, false⟩] 4 []⟩

/-- C2 counterexample: a brush lying on the candidate plane with
inverted_plane = false contributes (0,1,0,1,0), not the (1,0,0,1,0) the
claim states for the non-inverted case. -/
theorem C2_counterexample :
    (calculateSplitRating (1/10000) ⟨[⟨0, 0, 0⟩], [0], 0, false, false⟩ 0
        [⟨⟨0, 0, 1⟩, 0⟩] []).1 = ((0 : ℤ), 1, 0, 1, 0) ∧
    ((0 : ℤ), 1, 0, 1, 0) ≠ ((1 : ℤ), 0, 0, 1, 0) := by
  constructor
  · rw [calculateSplitRating, if_pos ⟨rfl, rfl⟩]
    rfl
  · decide

/-! ## Polygon clipping (bsp.rs, BSPPolygon::clip_plane)

The clip walks the edges of the polygon; a vertex with signed distance
at most epsilon is kept, and a strictly crossing edge contributes the
plane-edge intersection point, appended to the shared vertex pool.  The
flip_face variant negates the plane first (used for the front half);
the post-split sanity assert checks every kept index against the same
(possibly negated) plane. -/

/-- Flip adjustment at the top of clip_plane: when flip_face is set the
plane normal and distance are both multiplied by -1. -/
def flipAdjust (pl : PlaneQ) (flip : Bool) : PlaneQ :=
  if flip then pl.negate else pl

/-- One iteration of the clip_plane edge loop at position i: keep the
current vertex when d1 is at most epsilon, and append the intersection
point (indexed at the current end of the vertex pool) when the edge
crosses the plane strictly. -/
def clipStep (eps : ℚ) (pv : List Vec3) (idxs : List ℕ) (plv : PlaneQ)
    (acc : List ℕ × List Vec3) (i : ℕ) : List ℕ × List Vec3 :=
  let v1 := pv.getD (idxs.getD i 0) ⟨0, 0, 0⟩
  let v2 := pv.getD (idxs.getD ((i + 1) % idxs.length) 0) ⟨0, 0, 0⟩
  let d1 := v1.dot plv.normal + plv.distance
  let d2 := v2.dot plv.normal + plv.distance
  let acc1 := if d1 ≤ eps then (acc.1 ++ [idxs.getD i 0], acc.2) else acc
  if (d1 > eps ∧ d2 < -eps) ∨ (d1 < -eps ∧ d2 > eps) then
    let t := (-plv.distance - plv.normal.dot v1) / plv.normal.dot (v2.sub v1)
    let v3 := v1.add (Vec3.smul t (v2.sub v1))
    (acc1.1 ++ [acc1.2.length], acc1.2 ++ [v3])
  else acc1

/-- BSPPolygon.clip_plane: returns the new index list and the new vertex
pool (the original vertices plus any intersection points). -/
def clipPlane (eps : ℚ) (poly : BSPPolygonM) (plane : ℕ)
    (planeList : List PlaneQ) (flip : Bool) : List ℕ × List Vec3 :=
  let plv := flipAdjust (planeList.getD plane ⟨⟨0, 0, 0⟩, 0⟩) flip
  (List.range poly.indices.length).foldl
    (clipStep eps poly.vertices poly.indices plv) ([], poly.vertices)

theorem Vec3.dot_comm (a b : Vec3) : a.dot b = b.dot a := by
  unfold Vec3.dot
  ring

theorem Vec3.dot_zero_right (a : Vec3) : a.dot ⟨0, 0, 0⟩ = 0 := by
  unfold Vec3.dot
  ring

theorem Vec3.zero_dot (a : Vec3) : Vec3.dot ⟨0, 0, 0⟩ a = 0 := by
  unfold Vec3.dot
  ring

theorem Vec3.dot_add_smul_sub (n v1 v2 : Vec3) (t : ℚ) :
    n.dot (v1.add (Vec3.smul t (v2.sub v1))) =
      n.dot v1 + t * (n.dot v2 - n.dot v1) := by
  unfold Vec3.dot Vec3.add Vec3.smul Vec3.sub
  ring

theorem Vec3.dot_sub_right (n v1 v2 : Vec3) :
    n.dot (v2.sub v1) = n.dot v2 - n.dot v1 := by
  unfold Vec3.dot Vec3.sub
  ring

/-- The intersection point constructed by clip_plane lies exactly on the
clip plane (in exact arithmetic). -/
theorem clip_intersection_on_plane (plv : PlaneQ) (v1 v2 : Vec3)
    (hne : plv.normal.dot (v2.sub v1) ≠ 0) :
    plv.normal.dot
        (v1.add (Vec3.smul
          ((-plv.distance - plv.normal.dot v1) / plv.normal.dot (v2.sub v1))
          (v2.sub v1))) + plv.distance = 0 := by
  rw [Vec3.dot_add_smul_sub]
  rw [Vec3.dot_sub_right] at hne ⊢
  field_simp

theorem getD_append_left (l l2 : List Vec3) (n : ℕ) (d : Vec3)
    (h : n < l.length) : (l ++ l2).getD n d = l.getD n d := by
  simp [List.getElem?_append, h]

theorem getD_of_len_le (l : List Vec3) (n : ℕ) (d : Vec3)
    (h : l.length ≤ n) : l.getD n d = d := by
  simp [List.getElem?_len_le h]

/-- A kept vertex of the clip loop satisfies the 10-epsilon bound when
looked up in the extended pool. -/
theorem clip_kept_bound (eps : ℚ) (heps : 0 ≤ eps) (pv extra : List Vec3)
    (plv : PlaneQ) (idx0 : ℕ)
    (hextra : ∀ v ∈ extra, plv.normal.dot v + plv.distance = 0)
    (hk : (pv.getD idx0 ⟨0, 0, 0⟩).dot plv.normal + plv.distance ≤ eps) :
    plv.normal.dot ((pv ++ extra).getD idx0 ⟨0, 0, 0⟩) + plv.distance ≤
      10 * eps := by
  by_cases hlt : idx0 < pv.length
  · rw [getD_append_left _ _ _ _ hlt, Vec3.dot_comm]
    linarith
  · push_neg at hlt
    rw [getD_of_len_le _ _ _ hlt, Vec3.zero_dot] at hk
    by_cases hin : idx0 < (pv ++ extra).length
    · have hsub : idx0 - pv.length < extra.length := by
        rw [List.length_append] at hin
        omega
      have hmem : (pv ++ extra).getD idx0 ⟨0, 0, 0⟩ ∈ extra := by
        rw [List.getD_eq_getElem?_getD, List.getElem?_append_right hlt,
          List.getElem?_eq_getElem hsub]
        exact List.getElem_mem _
      have h0 := hextra _ hmem
      linarith
    · push_neg at hin
      rw [getD_of_len_le _ _ _ hin, Vec3.dot_zero_right]
      linarith

/-- Appending an on-bound vertex to the pool keeps every index on bound. -/
theorem bound_after_append (plv : PlaneQ) (eps : ℚ) (l : List Vec3)
    (v : Vec3) (idx : ℕ)
    (hold : plv.normal.dot (l.getD idx ⟨0, 0, 0⟩) + plv.distance ≤ 10 * eps)
    (hv : plv.normal.dot v + plv.distance ≤ 10 * eps) :
    plv.normal.dot ((l ++ [v]).getD idx ⟨0, 0, 0⟩) + plv.distance ≤
      10 * eps := by
  rcases Nat.lt_trichotomy idx l.length with h | h | h
  · rw [getD_append_left _ _ _ _ h]
    exact hold
  · rw [List.getD_eq_getElem?_getD, h, List.getElem?_concat_length]
    exact hv
  · have hge : (l ++ [v]).length ≤ idx := by
      rw [List.length_append]
      simp
      omega
    rw [getD_of_len_le _ _ _ hge]
    rw [getD_of_len_le _ _ _ (by omega)] at hold
    exact hold

/-- Invariant carried through the clip loop: the vertex pool is the
original pool extended by on-plane intersection points, and every index
already emitted refers to a vertex within 10 epsilon of the plane. -/
def ClipInv (eps : ℚ) (pv : List Vec3) (plv : PlaneQ)
    (acc : List ℕ × List Vec3) : Prop :=
  (∃ extra, acc.2 = pv ++ extra ∧
    ∀ v ∈ extra, plv.normal.dot v + plv.distance = 0) ∧
  (∀ idx ∈ acc.1,
    plv.normal.dot (acc.2.getD idx ⟨0, 0, 0⟩) + plv.distance ≤ 10 * eps)

/-- Pushing the on-plane intersection point and its pool index preserves
the clip invariant. -/
theorem clip_append_intersection (eps : ℚ) (heps : 0 ≤ eps)
    (pv : List Vec3) (plv : PlaneQ) (acc1 : List ℕ × List Vec3) (v : Vec3)
    (hinv : ClipInv eps pv plv acc1)
    (hon : plv.normal.dot v + plv.distance = 0) :
    ClipInv eps pv plv (acc1.1 ++ [acc1.2.length], acc1.2 ++ [v]) := by
  obtain ⟨⟨extra1, hpool1, hextra1⟩, hidx1⟩ := hinv
  constructor
  · refine ⟨extra1 ++ [v], ?_, ?_⟩
    · show acc1.2 ++ [v] = pv ++ (extra1 ++ [v])
      rw [hpool1, List.append_assoc]
    · intro w hw
      rcases List.mem_append.mp hw with h1 | h2
      · exact hextra1 w h1
      · rcases List.mem_singleton.mp h2 with rfl
        exact hon
  · intro idx hmem
    rcases List.mem_append.mp hmem with hold | hnewidx
    · exact bound_after_append plv eps _ _ idx (hidx1 idx hold) (by linarith)
    · rcases List.mem_singleton.mp hnewidx with rfl
      show plv.normal.dot
          ((acc1.2 ++ [v]).getD acc1.2.length ⟨0, 0, 0⟩) + plv.distance ≤
          10 * eps
      rw [List.getD_eq_getElem?_getD, List.getElem?_concat_length]
      simp only [Option.getD_some]
      linarith

theorem clipStep_preserves (eps : ℚ) (heps : 0 ≤ eps) (pv : List Vec3)
    (idxs : List ℕ) (plv : PlaneQ) (acc : List ℕ × List Vec3) (i : ℕ)
    (hinv : ClipInv eps pv plv acc) :
    ClipInv eps pv plv (clipStep eps pv idxs plv acc i) := by
  obtain ⟨⟨extra, hpool, hextra⟩, hidx⟩ := hinv
  have hkeep : ClipInv eps pv plv
      (if (pv.getD (idxs.getD i 0) ⟨0, 0, 0⟩).dot plv.normal + plv.distance ≤ eps
       then (acc.1 ++ [idxs.getD i 0], acc.2) else acc) := by
    by_cases hk :
        (pv.getD (idxs.getD i 0) ⟨0, 0, 0⟩).dot plv.normal + plv.distance ≤ eps
    · rw [if_pos hk]
      refine ⟨⟨extra, hpool, hextra⟩, ?_⟩
      intro idx hmem
      rcases List.mem_append.mp hmem with hold | hnew
      · exact hidx idx hold
      · rcases List.mem_singleton.mp hnew with rfl
        rw [hpool]
        exact clip_kept_bound eps heps pv extra plv _ hextra hk
    · rw [if_neg hk]
      exact ⟨⟨extra, hpool, hextra⟩, hidx⟩
  unfold clipStep
  by_cases hcross :
      ((pv.getD (idxs.getD i 0) ⟨0, 0, 0⟩).dot plv.normal + plv.distance > eps ∧
        (pv.getD (idxs.getD ((i + 1) % idxs.length) 0) ⟨0, 0, 0⟩).dot plv.normal +
          plv.distance < -eps) ∨
      ((pv.getD (idxs.getD i 0) ⟨0, 0, 0⟩).dot plv.normal + plv.distance < -eps ∧
        (pv.getD (idxs.getD ((i + 1) % idxs.length) 0) ⟨0, 0, 0⟩).dot plv.normal +
          plv.distance > eps)
  · rw [if_pos hcross]
    have hne : plv.normal.dot
        ((pv.getD (idxs.getD ((i + 1) % idxs.length) 0) ⟨0, 0, 0⟩).sub
          (pv.getD (idxs.getD i 0) ⟨0, 0, 0⟩)) ≠ 0 := by
      rw [Vec3.dot_sub_right]
      rw [Vec3.dot_comm plv.normal, Vec3.dot_comm plv.normal]
      rcases hcross with ⟨ha, hb⟩ | ⟨ha, hb⟩ <;> intro h <;> linarith
    exact clip_append_intersection eps heps pv plv _ _ hkeep
      (clip_intersection_on_plane plv
        (pv.getD (idxs.getD i 0) ⟨0, 0, 0⟩)
        (pv.getD (idxs.getD ((i + 1) % idxs.length) 0) ⟨0, 0, 0⟩) hne)
  · rw [if_neg hcross]
    exact hkeep

theorem clipLoop_inv (eps : ℚ) (heps : 0 ≤ eps) (pv : List Vec3)
    (idxs : List ℕ) (plv : PlaneQ) :
    ∀ (positions : List ℕ) (acc : List ℕ × List Vec3),
      ClipInv eps pv plv acc →
      ClipInv eps pv plv (positions.foldl (clipStep eps pv idxs plv) acc) := by
  intro positions
  induction positions with
  | nil => intro acc h; exact h
  | cons p rest ih =>
    intro acc h
    rw [List.foldl_cons]
    exact ih _ (clipStep_preserves eps heps pv idxs plv acc p h)

/-- C3: after clipping a polygon against a plane (including the
flip_face variant, whose effective plane is the negation), every vertex
referenced by the resulting index list satisfies
dot(P.n, v) + P.d at most 10 epsilon for the effective clip plane P, so
the post-split sanity assert in clip_plane never fires. -/
theorem C3_clip_plane_bound (eps : ℚ) (heps : 0 ≤ eps) (poly : BSPPolygonM)
    (plane : ℕ) (planeList : List PlaneQ) (flip : Bool) :
    ∀ idx ∈ (clipPlane eps poly plane planeList flip).1,
      (flipAdjust (planeList.getD plane ⟨⟨0, 0, 0⟩, 0⟩) flip).normal.dot
          ((clipPlane eps poly plane planeList flip).2.getD idx ⟨0, 0, 0⟩) +
        (flipAdjust (planeList.getD plane ⟨⟨0, 0, 0⟩, 0⟩) flip).distance ≤
        10 * eps := by
  have hinv0 : ClipInv eps poly.vertices
      (flipAdjust (planeList.getD plane ⟨⟨0, 0, 0⟩, 0⟩) flip)
      ([], poly.vertices) := by
    constructor
    · exact ⟨[], by simp, by intro v hv; cases hv⟩
    · intro idx hmem
      cases hmem
  have h := clipLoop_inv eps heps poly.vertices poly.indices
    (flipAdjust (planeList.getD plane ⟨⟨0, 0, 0⟩, 0⟩) flip)
    (List.range poly.indices.length) ([], poly.vertices) hinv0
  exact h.2

/-- Closed witness for C3: clipping a triangle that spans the z = 0
plane keeps vertex index 0, which satisfies the 10-epsilon bound. -/
theorem C3_clip_plane_bound_witness :
    (0 : ℚ) ≤ 1/10000 ∧
    (flipAdjust ([(⟨⟨0, 0, 1⟩, 0⟩ : PlaneQ)].getD 0 ⟨⟨0, 0, 0⟩, 0⟩) false).normal.dot
        ((clipPlane (1/10000) ⟨[⟨0, 0, -1⟩, ⟨0, 0, 1⟩, ⟨1, 0, 1⟩], [0, 1, 2], 0,
            false, false⟩ 0 [⟨⟨0, 0, 1⟩, 0⟩] false).2.getD 0 ⟨0, 0, 0⟩) +
      (flipAdjust ([(⟨⟨0, 0, 1⟩, 0⟩ : PlaneQ)].getD 0 ⟨⟨0, 0, 0⟩, 0⟩) false).distance ≤
      10 * (1/10000) :=
  ⟨by norm_num,
   C3_clip_plane_bound (1/10000) (by norm_num)
     ⟨[⟨0, 0, -1⟩, ⟨0, 0, 1⟩, ⟨1, 0, 1⟩], [0, 1, 2], 0, false, false⟩
     0 [⟨⟨0, 0, 1⟩, 0⟩] false 0
     (by norm_num [clipPlane, clipStep, flipAdjust, Vec3.dot, Vec3.sub,
        Vec3.add, Vec3.smul, show List.range 3 = [0, 1, 2] from rfl])⟩

/-! ## Coord bins (builder.rs, DIFBuilder::export_coord_bins)

The builder first pushes 256 CoordBin entries (hard-coded in the
engine), then walks the 16 by 16 xy grid, rewriting bin_start/bin_count
in place and appending overlapping hull indices to coord_bin_indices.
In build() the interior starts from empty_interior() (coord_bins = [])
and no other code touches coord_bins, so the state entering
export_coord_bins has an empty coord_bins list. -/

/-- CoordBin record: bin_start and bin_count. -/
structure CoordBin where
  binStart : ℕ
  binCount : ℕ
  deriving DecidableEq, Repr

/-- The xy bounding rectangle of a convex hull (min_x, max_x, min_y,
max_y fields used by the overlap test). -/
structure HullBox where
  minX : ℚ
  maxX : ℚ
  minY : ℚ
  maxY : ℚ
  deriving DecidableEq, Repr

/-- The slice of the builder state that export_coord_bins reads and
writes. -/
structure CBState where
  boundingBoxMin : Vec3
  boundingBoxMax : Vec3
  convexHulls : List HullBox
  coordBins : List CoordBin
  coordBinIndices : List ℕ
  deriving DecidableEq, Repr

/-- The aabb overlap test of the coord-bin loop (negated disjunction,
as in the source). -/
def coordBinOverlap (minX maxX minY maxY : ℚ) (h : HullBox) : Bool :=
  !(decide (minX > h.maxX) || decide (maxX < h.minX) ||
    decide (minY > h.maxY) || decide (maxY < h.minY))

/-- One hull of the per-bin loop: append the hull index and bump
bin_count when the xy windows overlap. -/
def hullStep (minX maxX minY maxY : ℚ) (acc : CBState × ℕ)
    (kh : ℕ × HullBox) : CBState × ℕ :=
  if coordBinOverlap minX maxX minY maxY kh.2 then
    ({ acc.1 with coordBinIndices := acc.1.coordBinIndices ++ [kh.1] }, acc.2 + 1)
  else acc

/-- The body of the grid loop at cell (i, j): set bin_start to the
current length of coord_bin_indices, walk the hulls, then set
bin_count. -/
def coordBinInner (s : CBState) (i j : ℕ) : CBState :=
  let extent := Vec3.sub s.boundingBoxMax s.boundingBoxMin
  let minX := s.boundingBoxMin.x + (i : ℚ) * extent.x / 16
  let maxX := s.boundingBoxMin.x + ((i : ℚ) + 1) * extent.x / 16
  let minY := s.boundingBoxMin.y + (j : ℚ) * extent.y / 16
  let maxY := s.boundingBoxMin.y + ((j : ℚ) + 1) * extent.y / 16
  let binIndex := i * 16 + j
  let startBin : CoordBin :=
    ⟨s.coordBinIndices.length, (s.coordBins.getD binIndex ⟨0, 0⟩).binCount⟩
  let s1 := { s with coordBins := s.coordBins.set binIndex startBin }
  let sc := s1.convexHulls.enum.foldl (hullStep minX maxX minY maxY) (s1, 0)
  let countBin : CoordBin :=
    ⟨(sc.1.coordBins.getD binIndex ⟨0, 0⟩).binStart, sc.2⟩
  { sc.1 with coordBins := sc.1.coordBins.set binIndex countBin }

/-- DIFBuilder.export_coord_bins: push the 256 hard-coded bins, then
fill them over the 16 by 16 grid. -/
def exportCoordBins (s : CBState) : CBState :=
  let s0 := { s with coordBins :=
    s.coordBins ++ (List.range 256).map (fun i => CoordBin.mk i 1) }
  (List.range 16).foldl
    (fun si i => (List.range 16).foldl (fun sj j => coordBinInner sj i j) si) s0

theorem hullFold_coordBins (minX maxX minY maxY : ℚ) :
    ∀ (l : List (ℕ × HullBox)) (acc : CBState × ℕ),
      ((l.foldl (hullStep minX maxX minY maxY) acc).1).coordBins =
        acc.1.coordBins := by
  intro l
  induction l with
  | nil => intro acc; rfl
  | cons kh rest ih =>
    intro acc
    rw [List.foldl_cons]
    rw [ih]
    unfold hullStep
    split <;> rfl

theorem coordBinInner_length (s : CBState) (i j : ℕ) :
    (coordBinInner s i j).coordBins.length = s.coordBins.length := by
  simp only [coordBinInner]
  rw [hullFold_coordBins]
  simp [List.length_set]

theorem foldl_coordBins_length (f : CBState → ℕ → CBState)
    (hf : ∀ s n, (f s n).coordBins.length = s.coordBins.length) :
    ∀ (l : List ℕ) (s : CBState),
      ((l.foldl f s).coordBins.length = s.coordBins.length) := by
  intro l
  induction l with
  | nil => intro s; rfl
  | cons n rest ih =>
    intro s
    rw [List.foldl_cons, ih, hf]

/-- C8: starting from the state build() reaches export_coord_bins with
(coord_bins empty, as in empty_interior), the returned interior slice
holds exactly 256 coord_bins, for every bounding box and hull list. -/
theorem C8_coord_bins_256 (s : CBState) (hempty : s.coordBins = []) :
    (exportCoordBins s).coordBins.length = 256 := by
  unfold exportCoordBins
  rw [foldl_coordBins_length]
  · simp [hempty]
  · intro s1 n
    rw [foldl_coordBins_length]
    intro s2 m
    exact coordBinInner_length s2 n m

/-- Closed witness for C8 on a one-hull state. -/
theorem C8_coord_bins_256_witness :
    (exportCoordBins ⟨⟨0, 0, 0⟩, ⟨10, 10, 10⟩, [⟨0, 1, 0, 1⟩], [], []⟩).coordBins.length =
      256 :=
  C8_coord_bins_256 ⟨⟨0, 0, 0⟩, ⟨10, 10, 10⟩, [⟨0, 1, 0, 1⟩], [], []⟩ rfl

/-! ## Emit-string poly collection (builder.rs, DIFBuilder::export_convex_hull)

For a hull group the builder pushes one hull-point entry per triangle
vertex (duplicates included) but builds hull polys over epsilon
DEDUPLICATED local point indices.  The emit-string loop then iterates i
over all hull-point entries and asserts that some hull poly contains
local point i. -/

/-- One triangle of a hull group (only the vertex positions feed the
local point map). -/
structure HullTri where
  verts : List Vec3
  deriving DecidableEq, Repr

/-- A hull poly: local point indices of its three vertices plus the
interior plane index recorded in face_to_plane. -/
structure HullPolyM where
  points : List ℕ
  planeIndex : ℕ
  deriving DecidableEq, Repr

/-- The local point map construction of export_convex_hull: walk every
vertex of every triangle; a vertex missing from the epsilon map gets the
next local index. -/
def localPointFold (pe : ℚ) (tris : List HullTri) :
    List (Vec3 × ℕ) × List Vec3 :=
  tris.foldl
    (fun acc t =>
      t.verts.foldl
        (fun acc2 v =>
          match hmFind (ordPointEqB pe) acc2.1 v with
          | some _ => acc2
          | none => (acc2.1 ++ [(v, acc2.2.length)], acc2.2 ++ [v]))
        acc)
    ([], [])

/-- The hull polys of a group: per triangle, the local indices of its
vertices and its plane index (the plane indices come from face_to_plane,
supplied here as a parallel list). -/
def hullPolys (pe : ℚ) (tris : List HullTri) (planeIdxs : List ℕ) :
    List HullPolyM :=
  let lm := (localPointFold pe tris).1
  (List.zip tris planeIdxs).map
    (fun tp => ⟨tp.1.verts.map (fun v => (hmFind (ordPointEqB pe) lm v).getD 0),
      tp.2⟩)

/-- The emit_poly_indices computation for support point i: the polys
containing local point i, extended with polys sharing a plane with one
of them (skipping polys already present). -/
def emitPolyIndices (polys : List HullPolyM) (i : ℕ) : List ℕ :=
  let base := (polys.enum.filter (fun jp => jp.2.points.contains i)).map Prod.fst
  let newIndices := polys.enum.foldl
    (fun acc jp =>
      base.foldl
        (fun acc2 ep =>
          if ep = jp.1 then acc2
          else if (polys.getD ep ⟨[], 0⟩).planeIndex = jp.2.planeIndex then
            if base.contains jp.1 then acc2 else acc2 ++ [jp.1]
          else acc2)
        acc)
    []
  base ++ newIndices

/-- Whether the assert_ne!(emit_poly_indices.len(), 0) fires for some
iteration of the emit-string loop (i ranges over every hull point entry,
one per triangle vertex, duplicates included). -/
def emitAssertFires (pe : ℚ) (tris : List HullTri) (planeIdxs : List ℕ) : Bool :=
  let polys := hullPolys pe tris planeIdxs
  let total := (tris.map (fun t => t.verts.length)).sum
  (List.range total).any (fun i => (emitPolyIndices polys i).length == 0)

/-- Two triangles sharing the vertex at the origin exactly. -/
def c9Tris : List HullTri :=
  [⟨[⟨0, 0, 0⟩, ⟨1, 0, 0⟩, ⟨0, 1, 0⟩]⟩, ⟨[⟨0, 0, 0⟩, ⟨-1, 0, 0⟩, ⟨0, -1, 0⟩]⟩]

/-- C9 failing-input evaluation: with mb_only = false, a hull group of
two triangles sharing one vertex has 6 hull point entries but only 5
local points, the polys reference local indices 0..4 only, and at
iteration i = 5 emit_poly_indices is empty: the assert fires. -/
theorem C9_emit_assert_fires :
    emitAssertFires (1/1000000) c9Tris [0, 1] = true ∧
    emitPolyIndices (hullPolys (1/1000000) c9Tris [0, 1]) 5 = [] := by
  have hp : hullPolys (1/1000000) c9Tris [0, 1] =
      [⟨[0, 1, 2], 0⟩, ⟨[0, 3, 4], 1⟩] := by
    norm_num [hullPolys, localPointFold, hmFind, ordPointEqB, c9Tris, List.zip]
  constructor
  · simp only [emitAssertFires, hp]
    decide
  · rw [hp]
    decide

/-! ## Dif top-level frame (libdif/src/dif.rs)

Dif::read and Dif::write, parameterized over the component readers and
writers (Interior, Trigger, InteriorPathFollower, ForceField,
AISpecialNode, VehicleCollision, GameEntity live in their own modules).
Byte streams are lists of naturals; multibyte integers are
little-endian. -/

/-- A reader: consume a prefix of the byte stream or fail. -/
abbrev ByteReader (α : Type) := List ℕ → Option (α × List ℕ)

/-- Primitive u8 reader (EOF on empty input). -/
def u8Read : ByteReader ℕ := fun bs =>
  match bs with
  | [] => none
  | b :: rest => some (b, rest)

/-- Primitive little-endian u32 reader (EOF when fewer than 4 bytes). -/
def u32ReadLE : ByteReader ℕ := fun bs =>
  match bs with
  | b0 :: b1 :: b2 :: b3 :: rest =>
    some (b0 + b1 * 256 + b2 * 65536 + b3 * 16777216, rest)
  | _ => none

/-- Little-endian u32 writer. -/
def u32WriteLE (n : ℕ) : List ℕ :=
  [n % 256, n / 256 % 256, n / 65536 % 256, n / 16777216 % 256]

/-- The 8-byte IEND chunk footer that terminates an embedded PNG. -/
def pngFooter : List ℕ := [0x49, 0x45, 0x4E, 0x44, 0xAE, 0x42, 0x60, 0x82]

/-- Loop test of PNG::read: at least 8 bytes collected and the last 8
equal the footer. -/
def pngDone (data : List ℕ) : Bool :=
  decide (8 ≤ data.length) && decide (data.drop (data.length - 8) = pngFooter)

/-- PNG::read: push one byte at a time (EOF error on exhaustion) until
the collected data ends with the IEND footer. -/
def pngReadAux (acc : List ℕ) (bs : List ℕ) : Option (List ℕ × List ℕ) :=
  if pngDone acc then some (acc, bs)
  else
    match bs with
    | [] => none
    | b :: rest => pngReadAux (acc ++ [b]) rest

/-- PNG::read from the start of the stream. -/
def pngRead : ByteReader (List ℕ) := pngReadAux []

/-- Read n elements with the given element reader. -/
def readN {α : Type} (elem : ByteReader α) : ℕ → ByteReader (List α)
  | 0 => fun bs => some ([], bs)
  | n + 1 => fun bs => do
    let (a, r1) ← elem bs
    let (as, r2) ← readN elem n r1
    pure (a :: as, r2)

/-- Vec::read from io.rs: u32 count; when the high bit is set, clear it
and consume one u8 parameter byte (the compare_func of these vecs is
constantly false, so the element reader is always the wide one). -/
def readVec {α : Type} (elem : ByteReader α) : ByteReader (List α) := fun bs => do
  let (len0, r0) ← u32ReadLE bs
  if len0 &&& 0x80000000 ≠ 0 then do
    let (_, r1) ← u8Read r0
    readN elem (len0 ^^^ 0x80000000) r1
  else
    readN elem len0 r0

/-- Vec::write: u32 count then the elements. -/
def writeVec {α : Type} (w : α → List ℕ) (l : List α) : List ℕ :=
  u32WriteLE l.length ++ (l.map w).flatten

/-- The Dif record: the preview PNG has no field. -/
structure DifRecord (I T P F A V G : Type) where
  interiors : List I
  subObjects : List I
  triggers : List T
  interiorPathFollowers : List P
  forceFields : List F
  aiSpecialNodes : List A
  vehicleCollision : Option V
  gameEntities : List G

/-- The tail of Dif::read after the version and preview-PNG prefix: the
six component vectors, the vehicle-collision flag and optional record,
and the game-entities flag and optional vector.  The trailing u32 of
the file is not read. -/
def difReadBody {I T P F A V G : Type} (readI : ByteReader I) (readT : ByteReader T)
    (readP : ByteReader P) (readF : ByteReader F) (readA : ByteReader A)
    (readV : ByteReader V) (readG : ByteReader G) :
    ByteReader (DifRecord I T P F A V G) := fun r3 => do
  let (interiors, r4) ← readVec readI r3
  let (subObjects, r5) ← readVec readI r4
  let (triggers, r6) ← readVec readT r5
  let (pathFollowers, r7) ← readVec readP r6
  let (forceFields, r8) ← readVec readF r7
  let (aiNodes, r9) ← readVec readA r8
  let (vflag, r10) ← u32ReadLE r9
  let (vcol, r11) ← if vflag = 0 then pure ((none : Option V), r10)
    else do
      let (v, r) ← readV r10
      pure (some v, r)
  let (gflag, r12) ← u32ReadLE r11
  let (gameEntities, r13) ← if gflag = 2 then readVec readG r12
    else pure (([] : List G), r12)
  pure (⟨interiors, subObjects, triggers, pathFollowers, forceFields,
    aiNodes, vcol, gameEntities⟩, r13)

/-- Dif::read: dif version u32 (must be 44), preview-PNG flag byte
(a nonzero flag reads and discards a PNG), then the record body. -/
def difRead {I T P F A V G : Type} (readI : ByteReader I) (readT : ByteReader T)
    (readP : ByteReader P) (readF : ByteReader F) (readA : ByteReader A)
    (readV : ByteReader V) (readG : ByteReader G) :
    ByteReader (DifRecord I T P F A V G) := fun bs => do
  let (ver, r1) ← u32ReadLE bs
  if ver ≠ 44 then none
  else do
    let (flag, r2) ← u8Read r1
    let r3 ← if flag ≠ 0 then do
        let (_png, rp) ← pngRead r2
        pure rp
      else pure r2
    difReadBody readI readT readP readF readA readV readG r3

/-- Dif::write: the dif version, a preview-PNG flag byte that is always
0, the six component vectors, the vehicle-collision flag (1 or 0) and
optional record, the game-entities flag (2 or 0) and optional vector,
and a trailing u32 0. -/
def difWrite {I T P F A V G : Type} (writeI : I → List ℕ) (writeT : T → List ℕ)
    (writeP : P → List ℕ) (writeF : F → List ℕ) (writeA : A → List ℕ)
    (writeV : V → List ℕ) (writeG : G → List ℕ) (verDif : ℕ)
    (d : DifRecord I T P F A V G) : List ℕ :=
  u32WriteLE verDif ++ [0] ++
  writeVec writeI d.interiors ++ writeVec writeI d.subObjects ++
  writeVec writeT d.triggers ++ writeVec writeP d.interiorPathFollowers ++
  writeVec writeF d.forceFields ++ writeVec writeA d.aiSpecialNodes ++
  (match d.vehicleCollision with
   | some v => u32WriteLE 1 ++ writeV v
   | none => u32WriteLE 0) ++
  (if d.gameEntities.length > 0 then
    u32WriteLE 2 ++ writeVec writeG d.gameEntities
   else u32WriteLE 0) ++
  u32WriteLE 0

/-- C10: Dif::read discards an embedded preview PNG (a stream with flag
byte 1 followed by a PNG blob parses exactly as the stream with flag
byte 0 and the blob removed), and Dif::write always emits 0 for the
preview-PNG flag byte (right after the 4 version bytes) and ends with a
trailing u32 0; hence reading a DIF with a preview PNG and writing it
back produces a file without one. -/
theorem C10_preview_png_discarded {I T P F A V G : Type}
    (readI : ByteReader I) (readT : ByteReader T) (readP : ByteReader P)
    (readF : ByteReader F) (readA : ByteReader A) (readV : ByteReader V)
    (readG : ByteReader G) (s blob rest : List ℕ)
    (hpng : pngRead s = some (blob, rest)) :
    (difRead readI readT readP readF readA readV readG
        (u32WriteLE 44 ++ 1 :: s) =
      difRead readI readT readP readF readA readV readG
        (u32WriteLE 44 ++ 0 :: rest)) ∧
    (∀ (writeI : I → List ℕ) (writeT : T → List ℕ) (writeP : P → List ℕ)
       (writeF : F → List ℕ) (writeA : A → List ℕ) (writeV : V → List ℕ)
       (writeG : G → List ℕ) (verDif : ℕ) (d : DifRecord I T P F A V G),
       (∃ tail, difWrite writeI writeT writeP writeF writeA writeV writeG
           verDif d = u32WriteLE verDif ++ 0 :: tail) ∧
       (∃ pre, difWrite writeI writeT writeP writeF writeA writeV writeG
           verDif d = pre ++ u32WriteLE 0)) := by
  constructor
  · have h44 : u32WriteLE 44 = [44, 0, 0, 0] := rfl
    rw [h44]
    show (do
      let (ver, r1) ← u32ReadLE ([44, 0, 0, 0] ++ 1 :: s)
      if ver ≠ 44 then none
      else do
        let (flag, r2) ← u8Read r1
        let r3 ← if flag ≠ 0 then do
            let (_png, rp) ← pngRead r2
            pure rp
          else pure r2
        difReadBody readI readT readP readF readA readV readG r3) = _
    simp only [List.cons_append, List.nil_append, u32ReadLE, u8Read,
      Option.bind_some, Option.some_bind]
    norm_num
    rw [hpng]
    show difReadBody readI readT readP readF readA readV readG rest = _
    show _ = (do
      let (ver, r1) ← u32ReadLE (44 :: 0 :: 0 :: 0 :: 0 :: rest)
      if ver ≠ 44 then none
      else do
        let (flag, r2) ← u8Read r1
        let r3 ← if flag ≠ 0 then do
            let (_png, rp) ← pngRead r2
            pure rp
          else pure r2
        difReadBody readI readT readP readF readA readV readG r3)
    simp only [u32ReadLE, u8Read, Option.bind_some, Option.some_bind]
    norm_num
  · intro writeI writeT writeP writeF writeA writeV writeG verDif d
    constructor
    · refine ⟨writeVec writeI d.interiors ++ writeVec writeI d.subObjects ++
        writeVec writeT d.triggers ++ writeVec writeP d.interiorPathFollowers ++
        writeVec writeF d.forceFields ++ writeVec writeA d.aiSpecialNodes ++
        (match d.vehicleCollision with
         | some v => u32WriteLE 1 ++ writeV v
         | none => u32WriteLE 0) ++
        (if d.gameEntities.length > 0 then
          u32WriteLE 2 ++ writeVec writeG d.gameEntities
         else u32WriteLE 0) ++
        u32WriteLE 0, ?_⟩
      simp [difWrite, List.append_assoc]
    · refine ⟨u32WriteLE verDif ++ [0] ++
        writeVec writeI d.interiors ++ writeVec writeI d.subObjects ++
        writeVec writeT d.triggers ++ writeVec writeP d.interiorPathFollowers ++
        writeVec writeF d.forceFields ++ writeVec writeA d.aiSpecialNodes ++
        (match d.vehicleCollision with
         | some v => u32WriteLE 1 ++ writeV v
         | none => u32WriteLE 0) ++
        (if d.gameEntities.length > 0 then
          u32WriteLE 2 ++ writeVec writeG d.gameEntities
         else u32WriteLE 0), ?_⟩
      simp [difWrite, List.append_assoc]

/-- Closed witness for C10 with unit components and a PNG consisting of
just the IEND footer. -/
theorem C10_preview_png_discarded_witness :
    (difRead (I := Unit) (T := Unit) (P := Unit) (F := Unit) (A := Unit)
        (V := Unit) (G := Unit)
        (fun bs => some ((), bs)) (fun bs => some ((), bs))
        (fun bs => some ((), bs)) (fun bs => some ((), bs))
        (fun bs => some ((), bs)) (fun bs => some ((), bs))
        (fun bs => some ((), bs)) (u32WriteLE 44 ++ 1 :: pngFooter) =
      difRead (fun bs => some ((), bs)) (fun bs => some ((), bs))
        (fun bs => some ((), bs)) (fun bs => some ((), bs))
        (fun bs => some ((), bs)) (fun bs => some ((), bs))
        (fun bs => some ((), bs)) (u32WriteLE 44 ++ 0 :: ([] : List ℕ))) ∧
    (∃ tail, difWrite (I := Unit) (T := Unit) (P := Unit) (F := Unit)
        (A := Unit) (V := Unit) (G := Unit)
        (fun _ => []) (fun _ => []) (fun _ => []) (fun _ => [])
        (fun _ => []) (fun _ => []) (fun _ => []) 44
        ⟨[], [], [], [], [], [], none, []⟩ = u32WriteLE 44 ++ 0 :: tail) :=
  have h := C10_preview_png_discarded
    (fun bs => some ((), bs)) (fun bs => some ((), bs))
    (fun bs => some ((), bs)) (fun bs => some ((), bs))
    (fun bs => some ((), bs)) (fun bs => some ((), bs))
    (fun bs => some ((), bs)) pngFooter pngFooter [] (by decide)
  ⟨h.1, (h.2 (fun _ => []) (fun _ => []) (fun _ => []) (fun _ => [])
    (fun _ => []) (fun _ => []) (fun _ => []) 44
    ⟨[], [], [], [], [], [], none, []⟩).1⟩

end IoDif